import Mathlib

/-
  Verification of the ts-rules-composer combinator runtime.

  The development shallow-embeds the rule/result data model, the safety
  normalization layer and the composition operators of the repository.
  Rules are modelled as pure functions from an input and an optional
  context to an `Outcome`: the settled behaviour of one invocation of a
  (possibly asynchronous) rule.  A thrown exception and a rejected promise
  are observationally identical to an `await`-ing caller, so both are the
  `thrown` outcome.  Invocation counts and orders are made observable by
  having each combinator also return the zero-based indices of the rules it
  invoked, in invocation order.
-/

namespace TS

/-- JavaScript runtime value, as far as the combinator core inspects values:
strings, numbers, booleans, `null`, `undefined`, `Error` instances (carrying
their message) and plain objects (ordered own enumerable properties).
Cyclic objects and functions-as-values are not representable; no claim
depends on them. -/
inductive JsVal where
  | str : String → JsVal
  | num : Int → JsVal
  | bool : Bool → JsVal
  | nullV : JsVal
  | undefV : JsVal
  | errObj : String → JsVal
  | obj : List (String × JsVal) → JsVal

/-- JavaScript truthiness of a value (`if (v)`). -/
def JsVal.truthy : JsVal → Bool
  | .str s => !s.isEmpty
  | .num n => n != 0
  | .bool b => b
  | .nullV => false
  | .undefV => false
  | .errObj _ => true
  | .obj _ => true

/-- `typeof v === "object" && v !== null`: Error instances and plain objects.
`typeof null` is also "object" but the source guards with `e !== null`. -/
def JsVal.isObject : JsVal → Bool
  | .errObj _ => true
  | .obj _ => true
  | _ => false

/-- `String(v)` on the values the default error transform can meet. -/
def jsString : JsVal → String
  | .str s => s
  | .num n => toString n
  | .bool b => if b then "true" else "false"
  | .nullV => "null"
  | .undefV => "undefined"
  | .errObj m => "Error: " ++ m
  | .obj _ => "[object Object]"

/-- Default `errorTransform` of `withSafeError` and `withSafePredicate`
(src/unnamed/part_025, part_024): a non-null object (including an `Error`
instance, which is an object) is preserved as-is; a primitive is
stringified.  The `e instanceof Error` branch of the source is only
reachable for non-objects, where it is false, so the non-object case is
`String(e)`. -/
def defaultErrorTransform (e : JsVal) : JsVal :=
  if e.isObject then e else .str (jsString e)

/-- The result of a rule: `pass()` is `{status: "passed"}` and `fail(e)` is
`{status: "failed", error: e}` (src/src/lib/helpers/result). -/
inductive RuleResult (E : Type) where
  | passed : RuleResult E
  | failed : E → RuleResult E

/-- Settled behaviour of one invocation of a rule: it returned a well-formed
`RuleResult`; or it settled with an object value lacking the `status`
discriminant (`invalid`); or it threw / its promise rejected (`thrown`),
carrying the thrown value. -/
inductive Outcome (E : Type) where
  | ret : RuleResult E → Outcome E
  | invalid : Outcome E
  | thrown : JsVal → Outcome E

/-- A rule: `(input: I, context?: C) => Result | Promise<Result>`
(src/src/lib/types/rule.ts), modelled by the settled outcome of the call.
`Option C` models the optional context parameter (`none` = `undefined`). -/
def Rule (I E C : Type) := I → Option C → Outcome E

/-- Safety options shared by `RuleSafetyOptions` and `SafetyOptions`
(src/unnamed/part_035 and the predicate variant).  TS consumers read the
fields with optional chaining, so each field is `Option`-valued; the
`errorHandlingMode` union `"safe" | "unsafe"` is kept as a string, exactly
as the source compares it (`opts?.errorHandlingMode === "unsafe"`).
`predicateErrorTransform` is the extra field of `SafetyOptions` consumed by
the conditional combinators; structural typing lets one record model both
option types. -/
structure SafetyOptions where
  errorHandlingMode : Option String
  errorTransform : Option (JsVal → JsVal)
  predicateErrorTransform : Option (JsVal → JsVal)

/-- The all-absent options record (`{}` / omitted options). -/
def noOpts : SafetyOptions := ⟨none, none, none⟩

/-- `withSafeError` (src/unnamed/part_025 lines 27-56): await the rule; a
well-formed result (`result && typeof result === "object" && "status" in
result`) passes through; any other settled value becomes
`fail(errorTransform(new Error("Invalid rule - did not return RuleResult")))`;
a caught exception / rejection becomes `fail(errorTransform(error))`.
Passing `none` as `errorTransform` models calling the function without the
second argument, which selects the default parameter. -/
def withSafeError (rule : Rule I JsVal C) (errorTransform : Option (JsVal → JsVal)) :
    Rule I JsVal C :=
  fun input context =>
    let T := errorTransform.getD defaultErrorTransform
    match rule input context with
    | .ret r => .ret r
    | .invalid => .ret (.failed (T (.errObj "Invalid rule - did not return RuleResult")))
    | .thrown e => .ret (.failed (T e))

/-- `getNormalizedRule` (src/src/lib/helpers/safety/get-normalized-rule.ts):
in `"unsafe"` mode return the rule unchanged, otherwise wrap it with
`withSafeError(rule, opts?.errorTransform)`. -/
def getNormalizedRule (rule : Rule I JsVal C) (opts : Option SafetyOptions) :
    Rule I JsVal C :=
  if opts.bind (·.errorHandlingMode) = some "unsafe" then rule
  else withSafeError rule (opts.bind (·.errorTransform))

/-- `getNormalizedRules` (src/src/lib/helpers/safety/get-normalized-rules.ts):
in `"unsafe"` mode return the list unchanged, otherwise wrap every rule with
`withSafeError(rule, opts?.errorTransform)`. -/
def getNormalizedRules (rules : List (Rule I JsVal C)) (opts : Option SafetyOptions) :
    List (Rule I JsVal C) :=
  if opts.bind (·.errorHandlingMode) = some "unsafe" then rules
  else rules.map (fun rule => withSafeError rule (opts.bind (·.errorTransform)))

/-- `CompositionOptions` (src/src/lib/types/composition-options.ts):
`cloneContext`, `cloneStrategy` and the safety fields.  `pipeRules` as
implemented consults only `options?.cloneContext`; the remaining fields are
present but ignored by it. -/
structure CompositionOptions where
  cloneContext : Bool
  cloneStrategy : Option String
  errorHandlingMode : Option String
  errorTransform : Option (JsVal → JsVal)

/-- The empty options record `{}` (every field absent / default). -/
def defaultCompositionOptions : CompositionOptions := ⟨false, none, none, none⟩

/-- Native `structuredClone`: a deep copy.  On a pure value domain with no
reference identity (and no functions, which would make it throw), a deep
copy is the value itself; in particular `structuredClone(null) = null` and
`structuredClone(undefined) = undefined`. -/
def structuredCloneV (value : JsVal) : JsVal := value

/-- `options?.cloneContext ? structuredClone(context) : context`, computed
once per composition invocation (src/src/lib/composition/pipe-rules.ts line
32).  `structuredClone(undefined)` is `undefined`, hence the `Option.map`. -/
def resolvedContext (options : CompositionOptions) (context : Option JsVal) : Option JsVal :=
  if options.cloneContext then context.map structuredCloneV else context

/-- Loop body of `pipeRules` (src/src/lib/composition/pipe-rules.ts lines
36-42): await each rule in order; return the first `failed` result verbatim;
a rejection propagates (the composed promise rejects); a settled value whose
`status` is not `"failed"` (including a malformed one) lets the loop
continue; an exhausted loop returns `pass()`.  `i` is the index of the head
rule; the second component records the indices of the invoked rules in
invocation order. -/
def pipeRulesGo (input : I) (context : Option JsVal) :
    List (Rule I E JsVal) → Nat → Outcome E × List Nat
  | [], _ => (.ret .passed, [])
  | rule :: rest, i =>
    match rule input context with
    | .thrown v => (.thrown v, [i])
    | .ret (.failed e) => (.ret (.failed e), [i])
    | .ret .passed =>
      let next := pipeRulesGo input context rest (i + 1)
      (next.1, i :: next.2)
    | .invalid =>
      let next := pipeRulesGo input context rest (i + 1)
      (next.1, i :: next.2)

/-- `pipeRules` (src/src/lib/composition/pipe-rules.ts lines 27-44):
resolve the context once, then run the rules sequentially, fail-fast.  Note
that this operator applies no safety normalization to its rules: the other
option fields are ignored. -/
def pipeRules (rules : List (Rule I E JsVal)) (options : CompositionOptions)
    (input : I) (context : Option JsVal) : Outcome E × List Nat :=
  pipeRulesGo input (resolvedContext options context) rules 0

/-- `every` (src/src/lib/combinators/logic/every.ts lines 28-47): resolve
the context once, invoke every rule (`rules.map` inside `Promise.all`
invokes each exactly once, in list order, before anything is awaited), then
collect the errors of the failed results in list order and return
`fail(errors)` when there is at least one, `pass()` otherwise.  If any rule
rejects, `Promise.all` rejects with that rejection (for simultaneously
settled pure outcomes, the first in list order); results whose `status` is
not `"failed"` contribute no error. -/
def every (rules : List (Rule I E JsVal)) (options : CompositionOptions)
    (input : I) (context : Option JsVal) : Outcome (List E) × List Nat :=
  let currentContext := resolvedContext options context
  let results := rules.map (fun rule => rule input currentContext)
  let out :=
    match results.find? (fun r => match r with | .thrown _ => true | _ => false) with
    | some (.thrown v) => Outcome.thrown v
    | _ =>
      let errors := results.filterMap
        (fun r => match r with | .ret (.failed e) => some e | _ => none)
      if errors.length > 0 then .ret (.failed errors) else .ret .passed
  (out, List.range rules.length)

/-- `allRules` (src/src/lib/composition/all-rules.ts lines 7-26 and the
identical src/src/lib/combinators/logic/all-rules.ts): same body as
`every`. -/
def allRules (rules : List (Rule I E JsVal)) (options : CompositionOptions)
    (input : I) (context : Option JsVal) : Outcome (List E) × List Nat :=
  let currentContext := resolvedContext options context
  let results := rules.map (fun rule => rule input currentContext)
  let out :=
    match results.find? (fun r => match r with | .thrown _ => true | _ => false) with
    | some (.thrown v) => Outcome.thrown v
    | _ =>
      let errors := results.filterMap
        (fun r => match r with | .ret (.failed e) => some e | _ => none)
      if errors.length > 0 then .ret (.failed errors) else .ret .passed
  (out, List.range rules.length)

/-- Settled behaviour of one invocation of a predicate
(`(input, context?) => boolean | Promise<boolean>`): it resolved to a
boolean; or to a non-boolean value (carrying its `typeof` string); or it
threw / rejected. -/
inductive PredOutcome where
  | retB : Bool → PredOutcome
  | retOther : String → PredOutcome
  | thrownP : JsVal → PredOutcome

/-- A predicate, modelled by the settled outcome of the call. -/
def Predicate (I C : Type) := I → Option C → PredOutcome

/-- `PredicateResult` (src/src/lib/types/predicate-result.ts):
`{status: "passed", value: bool}` or `{status: "failed", error}`. -/
inductive PredicateResult where
  | passedP : Bool → PredicateResult
  | failedP : JsVal → PredicateResult

/-- `withSafePredicate` (src/unnamed/part_024 lines 30-64): await the
predicate; a boolean is exposed as a passed `PredicateResult`; a non-boolean
resolution becomes `fail(errorTransform(new Error("Predicate must return
boolean, got <typeof>")))`; a caught exception / rejection becomes
`fail(errorTransform(error))`.  `none` models an absent `errorTransform`
argument, selecting the default parameter. -/
def withSafePredicate (predicate : Predicate I C) (errorTransform : Option (JsVal → JsVal)) :
    I → Option C → PredicateResult :=
  fun input context =>
    let T := errorTransform.getD defaultErrorTransform
    match predicate input context with
    | .retB b => .passedP b
    | .retOther tn => .failedP (T (.errObj ("Predicate must return boolean, got " ++ tn)))
    | .thrownP v => .failedP (T v)

/-- `when` (src/src/lib/combinators/logic/when.ts lines 36-49): wrap the
predicate with `withSafePredicate(predicate, options?.predicateErrorTransform)`
unconditionally; a failed predicate result is returned as
`fail(safePredicateResult.error)`; a true value runs the rule normalized by
`getNormalizedRule(rule, options)`; a false value yields `pass()`. -/
def whenRule (predicate : Predicate I JsVal) (rule : Rule I JsVal JsVal)
    (options : Option SafetyOptions) : Rule I JsVal JsVal :=
  fun input context =>
    let normalizedRule := getNormalizedRule rule options
    match withSafePredicate predicate (options.bind (·.predicateErrorTransform)) input context with
    | .failedP e => .ret (.failed e)
    | .passedP b => if b then normalizedRule input context else .ret .passed

/-- `unless` (src/src/lib/combinators/logic/unless.ts): same as `when` with
the boolean check inverted. -/
def unlessRule (predicate : Predicate I JsVal) (rule : Rule I JsVal JsVal)
    (options : Option SafetyOptions) : Rule I JsVal JsVal :=
  fun input context =>
    let normalizedRule := getNormalizedRule rule options
    match withSafePredicate predicate (options.bind (·.predicateErrorTransform)) input context with
    | .failedP e => .ret (.failed e)
    | .passedP b => if b then .ret .passed else normalizedRule input context

/-- `ifElse` (src/src/lib/combinators/logic/if-else.ts lines 40-63): wrap
the predicate with `withSafePredicate` unconditionally and return its
failure as a failed result; otherwise normalize the two branch rules with
`getNormalizedRules([ifRule, elseRule!], options)` — elementwise this is
`getNormalizedRule` — and run the branch selected by the boolean, with
`pass()` when the predicate is false and no `elseRule` was supplied. -/
def ifElse (predicate : Predicate I JsVal) (ifRule : Rule I JsVal JsVal)
    (elseRule : Option (Rule I JsVal JsVal)) (options : Option SafetyOptions) :
    Rule I JsVal JsVal :=
  fun input context =>
    match withSafePredicate predicate (options.bind (·.predicateErrorTransform)) input context with
    | .failedP e => .ret (.failed e)
    | .passedP b =>
      if b then getNormalizedRule ifRule options input context
      else
        match elseRule with
        | some er => getNormalizedRule er options input context
        | none => .ret .passed

/-- The `defaultCase` argument of `match` when present: `isRule` checks
callability (`typeof value === "function"`), so a function value is run as
the fallback rule and any non-callable value is a literal failure value.
(`literalD` carries a non-`undefined` literal: passing `undefined` is the
absent case, `none` one level up.) -/
inductive DefaultCase (I : Type) where
  | ruleD : Rule I JsVal JsVal → DefaultCase I
  | literalD : JsVal → DefaultCase I

/-- `match` (src/src/lib/combinators/logic/match.ts lines 74-100): compute
`key = await accessor(input, context)` — outside any try/catch and outside
the safety normalization, so an accessor exception/rejection rejects the
composed rule; look the key up in the case record (a hit is a function,
hence truthy); normalize and run the matched rule; otherwise run or return
the default case; otherwise fail with the generated message.  Keys are
modelled as strings (on strings, `String(key)` is the key itself). -/
def matchRule (accessor : I → Option JsVal → Except JsVal String)
    (caseMap : List (String × Rule I JsVal JsVal))
    (defaultCase : Option (DefaultCase I)) (options : Option SafetyOptions) :
    Rule I JsVal JsVal :=
  fun input context =>
    match accessor input context with
    | .error v => .thrown v
    | .ok key =>
      match caseMap.lookup key with
      | some matchedRule => getNormalizedRule matchedRule options input context
      | none =>
        match defaultCase with
        | some (.literalD v) => .ret (.failed v)
        | some (.ruleD r) => getNormalizedRule r options input context
        | none => .ret (.failed (.str ("No matching rule for key: " ++ key)))

/-- Options of `withRetry` (src/src/lib/combinators/utility/with-retry.ts):
`attempts` defaults to 3 and `shouldRetry` to `() => true`.  `delayMs`
(default 100) and `retryStrategy` only govern the `setTimeout` wait between
attempts; they cannot influence the settled result or the number of
invocations, so the pure model omits them. -/
structure RetryOptions where
  attempts : Nat := 3
  shouldRetry : JsVal → Nat → Bool := fun _ _ => true

/-- The `lastError` captured by `withRetry` from a non-passing attempt: the
`error` of a failed result, the thrown value of an exception/rejection, and
`undefined` (`result.error` on a malformed object) for an invalid result.
The `passed` case is never consulted. -/
def retryErrOf : Outcome JsVal → JsVal
  | .ret (.failed e) => e
  | .thrown v => v
  | .invalid => .undefV
  | .ret .passed => .undefV

/-- Loop of `withRetry` (src/src/lib/combinators/utility/with-retry.ts lines
46-64), for attempts `attempt, attempt+1, ...` with `remaining` iterations
left.  `runs i` is the settled outcome of the `i`-th invocation of the
wrapped rule (the rule may be stateful, so outcomes are indexed by attempt
number).  Each iteration: a passed result returns immediately; otherwise
`lastError` is captured (also from a caught exception) and
`shouldRetry(lastError, attempt)` is consulted — `false` returns
`fail(lastError)` at once; after the last iteration the sentinel
`fail("MAX_RETRIES_EXCEEDED")` is returned.  The second component counts the
rule invocations performed. -/
def withRetryGo (runs : Nat → Outcome JsVal) (shouldRetry : JsVal → Nat → Bool) :
    Nat → Nat → RuleResult JsVal × Nat
  | 0, _ => (.failed (.str "MAX_RETRIES_EXCEEDED"), 0)
  | remaining + 1, attempt =>
    match runs attempt with
    | .ret .passed => (.passed, 1)
    | out =>
      let lastError := retryErrOf out
      if shouldRetry lastError attempt then
        let next := withRetryGo runs shouldRetry remaining (attempt + 1)
        (next.1, next.2 + 1)
      else (.failed lastError, 1)

/-- `withRetry` (src/src/lib/combinators/utility/with-retry.ts lines 42-67):
run the loop for `attempts` iterations starting at attempt 1. -/
def withRetry (runs : Nat → Outcome JsVal) (options : RetryOptions) :
    RuleResult JsVal × Nat :=
  withRetryGo runs options.shouldRetry options.attempts 1

/-- A memoization cache entry (`{result, timestamp}`).  The stored result is
the settled value of the cached promise; a rejected promise is evicted by
its `catch` handler before any later call can observe it, so a `thrown`
outcome is never stored (see `withMemoizeCall`). -/
structure MemoEntry where
  result : Outcome JsVal
  timestamp : Nat

/-- Options of `withMemoize` (`{ttl?, maxSize?} & RuleSafetyOptions`). -/
structure MemoOptions where
  ttl : Option Nat := none
  maxSize : Option Nat := none
  errorHandlingMode : Option String := none
  errorTransform : Option (JsVal → JsVal) := none

/-- The `RuleSafetyOptions` part of `MemoOptions`, as consumed by
`getNormalizedRule(rule, options)` inside `withMemoize`. -/
def memoSafety (o : MemoOptions) : SafetyOptions :=
  ⟨o.errorHandlingMode, o.errorTransform, none⟩

/-- TTL sweep of `withMemoize`: delete every entry with
`now - entry.timestamp > ttl` (JS `Map` iterates and deletes in insertion
order; a deleting iteration is a filter). -/
def memoSweep (ttl now : Nat) (cache : List (String × MemoEntry)) :
    List (String × MemoEntry) :=
  cache.filter (fun kv => decide (now - kv.2.timestamp ≤ ttl))

/-- Size management of `withMemoize`:
`const oldestKey = cache.keys().next().value; if (oldestKey) cache.delete(oldestKey)`.
On an empty map `oldestKey` is `undefined` (falsy) and nothing happens; note
that the truthiness guard also skips the deletion when the oldest key is the
empty string. -/
def evictOldest (cache : List (String × MemoEntry)) : List (String × MemoEntry) :=
  match cache with
  | [] => []
  | (k, e) :: rest => if k = "" then (k, e) :: rest else rest

/-- One call of the rule returned by `withMemoize`
(src/src/lib/combinators/utility/with-memoize.ts lines 44-84), explicit in
the cache (a JS `Map` in insertion order, here a key-entry list) and in the
call time `now`.  Steps, in source order: derive the key; if `options.ttl`
is truthy, sweep expired entries; if `options.maxSize` is truthy and the
cache is at capacity, evict the oldest entry; on a hit return the cached
result; on a miss run `getNormalizedRule(rule, options)`, store
`{result, timestamp: now}` under the key (a `Map.set` of an absent key
appends), and if the result is a rejected promise its `catch` handler
deletes the entry again.  Returns the call's outcome, the new cache, and
the number of invocations of the wrapped rule (0 on a hit, 1 on a miss). -/
def withMemoizeCall (rule : Rule I JsVal JsVal) (keyFn : I → String)
    (options : MemoOptions) (cache : List (String × MemoEntry)) (input : I)
    (context : Option JsVal) (now : Nat) :
    Outcome JsVal × List (String × MemoEntry) × Nat :=
  let key := keyFn input
  let cache1 := if options.ttl.getD 0 ≠ 0 then memoSweep (options.ttl.getD 0) now cache else cache
  let cache2 :=
    if options.maxSize.getD 0 ≠ 0 ∧ cache1.length ≥ options.maxSize.getD 0 then
      evictOldest cache1
    else cache1
  match cache2.lookup key with
  | some entry => (entry.result, cache2, 0)
  | none =>
    match getNormalizedRule rule (some (memoSafety options)) input context with
    | .thrown v => (.thrown v, cache2, 1)
    | out => (out, cache2 ++ [(key, ⟨out, now⟩)], 1)

/-- A sequence of calls of one memoized rule (the closure returned by a
single `withMemoize(...)` call site owns one cache).  Each list element is
`(input, context, now)`; the result is the final cache and the total number
of invocations of the wrapped rule. -/
def withMemoizeRun (rule : Rule I JsVal JsVal) (keyFn : I → String)
    (options : MemoOptions) :
    List (I × Option JsVal × Nat) → List (String × MemoEntry) →
    List (String × MemoEntry) × Nat
  | [], cache => (cache, 0)
  | (input, context, now) :: calls, cache =>
    let step := withMemoizeCall rule keyFn options cache input context now
    let rest := withMemoizeRun rule keyFn options calls step.2.1
    (rest.1, step.2.2 + rest.2)

mutual

/-- `JSON.parse(JSON.stringify(v))` on a single value: `none` models a
round trip that cannot produce a value (`JSON.stringify(undefined)` is
`undefined`, so `JSON.parse` throws).  An `Error` instance has no own
enumerable properties and serializes to `{}`; object properties are
serialized recursively, dropping `undefined`-valued ones. -/
def jsonValue : JsVal → Option JsVal
  | .str s => some (.str s)
  | .num n => some (.num n)
  | .bool b => some (.bool b)
  | .nullV => some .nullV
  | .undefV => none
  | .errObj _ => some (.obj [])
  | .obj fields => some (.obj (jsonFields fields))

/-- JSON round trip of an object's property list: recursively serialized,
with `undefined`-valued properties dropped. -/
def jsonFields : List (String × JsVal) → List (String × JsVal)
  | [] => []
  | (k, v) :: rest =>
    match jsonValue v with
    | some w => (k, w) :: jsonFields rest
    | none => jsonFields rest

end

/-- `clone` (src/src/lib/helpers/clone/clone.ts lines 1-12), the JSON-based
strategy: a falsy input returns `{}`; otherwise
`JSON.parse(JSON.stringify(obj))`, with a thrown round trip caught (after a
warning) and `{}` returned. -/
def clone (obj : JsVal) : JsVal :=
  if obj.truthy = false then .obj []
  else
    match jsonValue obj with
    | some w => w
    | none => .obj []

/-- Own enumerable properties copied by a spread `{...obj}`: an object's
property list; a string's indexed characters; nothing for numbers, booleans
and `Error` instances (whose `message` is non-enumerable). -/
def spreadFields : JsVal → List (String × JsVal)
  | .obj fields => fields
  | .str s => s.toList.enum.map (fun ic => (toString ic.1, JsVal.str (String.mk [ic.2])))
  | _ => []

/-- `shallowClone` (src/unnamed/part_009 lines 1-12): a falsy input returns
`{}`; otherwise the top-level property copy `{...obj}` (which cannot throw
here, so the catch branch is unreachable). -/
def shallowClone (obj : JsVal) : JsVal :=
  if obj.truthy = false then .obj [] else .obj (spreadFields obj)

/-- The option fields read by `getCloneFn`
(src/src/lib/helpers/clone/getCloneFn.ts): `opts.shallowClone` and
`opts.structuredClone` (booleans; absent reads as falsy). -/
structure CloneFnOptions where
  shallowClone : Bool := false
  structuredClone : Bool := false

/-- `getCloneFn` (src/src/lib/helpers/clone/getCloneFn.ts lines 6-16):
prefer `shallowClone` when requested; else the native `structuredClone`
when requested and available (`canUseStructuredClone` models
`typeof structuredClone !== "undefined"`); else the JSON-based `clone`. -/
def getCloneFn (opts : CloneFnOptions) (canUseStructuredClone : Bool) : JsVal → JsVal :=
  if opts.shallowClone then shallowClone
  else if opts.structuredClone && canUseStructuredClone then structuredCloneV
  else clone

/-- Input shape of the spec's concrete pattern-match scenario. -/
structure Tx where
  paymentType : String

/- ### Helper lemmas -/

theorem pipeRulesGo_firstFail {I E : Type} (input : I) (context : Option JsVal) :
    ∀ (rules : List (Rule I E JsVal)) (k : Nat) (hk : k < rules.length) (e : E),
      (∀ i (hi : i < k), rules.get ⟨i, lt_trans hi hk⟩ input context = .ret .passed) →
      rules.get ⟨k, hk⟩ input context = .ret (.failed e) →
      ∀ i, pipeRulesGo input context rules i = (.ret (.failed e), List.range' i (k + 1)) := by
  intro rules
  induction rules with
  | nil => intro k hk; exact absurd hk (Nat.not_lt_zero k)
  | cons r rest ih =>
    intro k hk e hpass hfail i
    cases k with
    | zero =>
      have hr : r input context = .ret (.failed e) := hfail
      simp [pipeRulesGo, hr, List.range'_succ]
    | succ k =>
      have hr : r input context = .ret .passed := hpass 0 (Nat.succ_pos k)
      have hrec := ih k (Nat.lt_of_succ_lt_succ hk) e
        (fun j hj => hpass (j + 1) (Nat.succ_lt_succ hj)) hfail (i + 1)
      simp [pipeRulesGo, hr, hrec, List.range'_succ]

/- ### Claims -/

/-- Claim C1: for every non-empty list of rules composed with `pipeRules`,
if the rule at zero-based index `k` is the first to return a failed result,
then the rules before it are each invoked exactly once in left-to-right
order, the rules after it are never invoked (the invocation log is exactly
`[0, 1, ..., k]`), and the composed rule returns that rule's failed result
verbatim; for the empty list the composed rule returns `pass()`. -/
theorem claim_C1_pipeRules_fail_fast :
    (∀ (I E : Type) (rules : List (Rule I E JsVal)) (options : CompositionOptions)
       (input : I) (context : Option JsVal) (k : Nat) (hk : k < rules.length) (e : E),
       (∀ i (hi : i < k),
         rules.get ⟨i, lt_trans hi hk⟩ input (resolvedContext options context) = .ret .passed) →
       rules.get ⟨k, hk⟩ input (resolvedContext options context) = .ret (.failed e) →
       pipeRules rules options input context = (.ret (.failed e), List.range (k + 1)))
  ∧ (∀ (I E : Type) (options : CompositionOptions) (input : I) (context : Option JsVal),
       pipeRules ([] : List (Rule I E JsVal)) options input context = (.ret .passed, [])) := by
  constructor
  · intro I E rules options input context k hk e hpass hfail
    rw [pipeRules, pipeRulesGo_firstFail input (resolvedContext options context) rules k hk e
      hpass hfail 0, List.range_eq_range']
  · intro I E options input context
    rfl

/-- Witness for C1: the spec's sequential-validation scenario shape — the
second of three rules is the first to fail, so the log is `[0, 1]` and the
failure comes back verbatim. -/
theorem claim_C1_witness :
    pipeRules [(fun _ _ => Outcome.ret .passed : Rule Nat JsVal JsVal),
               (fun _ _ => Outcome.ret (.failed (.str "Amount must be positive"))),
               (fun _ _ => Outcome.ret .passed)]
      defaultCompositionOptions 0 none
    = (.ret (.failed (.str "Amount must be positive")), [0, 1]) := by
  have h := claim_C1_pipeRules_fail_fast.1 Nat JsVal
    [(fun _ _ => Outcome.ret .passed : Rule Nat JsVal JsVal),
     (fun _ _ => Outcome.ret (.failed (.str "Amount must be positive"))),
     (fun _ _ => Outcome.ret .passed)]
    defaultCompositionOptions 0 none 1 (by decide) (.str "Amount must be positive")
    (fun i hi => by
      have h0 : i = 0 := Nat.lt_one_iff.mp hi
      subst h0; rfl)
    rfl
  exact h.trans (by rfl)

theorem every_fst_no_thrown {I E : Type} (rules : List (Rule I E JsVal))
    (options : CompositionOptions) (input : I) (context : Option JsVal)
    (h : ∀ r ∈ rules, ∀ v, r input (resolvedContext options context) ≠ Outcome.thrown v) :
    (every rules options input context).1 =
      (if ((rules.map (fun r => r input (resolvedContext options context))).filterMap
            (fun o => match o with | .ret (.failed e) => some e | _ => none)).length > 0
       then .ret (.failed ((rules.map (fun r => r input (resolvedContext options context))).filterMap
            (fun o => match o with | .ret (.failed e) => some e | _ => none)))
       else .ret .passed) := by
  have hfind : (rules.map (fun r => r input (resolvedContext options context))).find?
      (fun r => match r with | .thrown _ => true | _ => false) = none := by
    rw [List.find?_eq_none]
    intro x hx
    obtain ⟨r, hr, hxr⟩ := List.mem_map.mp hx
    cases hv : r input (resolvedContext options context) with
    | thrown v => exact absurd hv (h r hr v)
    | ret res => rw [← hxr, hv]; cases res <;> simp
    | invalid => rw [← hxr, hv]; simp
  rw [every]
  simp only [hfind]

/-- Claim C2: for every list of rules composed with `every` / `allRules`
(two files with the same body), each rule is invoked exactly once (the
invocation log is `[0, ..., n-1]`, in list order); the composed rule returns
`pass()` if all rules pass, and otherwise `fail(errors)` where `errors` is
exactly the list of error values of the failing rules in input-list order;
error values — including the falsy `false`, `0` and `""` — are preserved
verbatim (closing concrete conjunct). -/
theorem claim_C2_every_collects_errors_in_order :
    (∀ (I E : Type) (rules : List (Rule I E JsVal)) (options : CompositionOptions)
       (input : I) (context : Option JsVal),
       allRules rules options input context = every rules options input context)
  ∧ (∀ (I E : Type) (rules : List (Rule I E JsVal)) (options : CompositionOptions)
       (input : I) (context : Option JsVal),
       (every rules options input context).2 = List.range rules.length)
  ∧ (∀ (I E : Type) (rules : List (Rule I E JsVal)) (options : CompositionOptions)
       (input : I) (context : Option JsVal),
       (∀ r ∈ rules, r input (resolvedContext options context) = .ret .passed) →
       (every rules options input context).1 = .ret .passed)
  ∧ (∀ (I E : Type) (rules : List (Rule I E JsVal)) (options : CompositionOptions)
       (input : I) (context : Option JsVal),
       (∀ r ∈ rules, ∃ res, r input (resolvedContext options context) = .ret res) →
       ((rules.map (fun r => r input (resolvedContext options context))).filterMap
          (fun o => match o with | .ret (.failed e) => some e | _ => none)) ≠ [] →
       (every rules options input context).1 =
         .ret (.failed ((rules.map (fun r => r input (resolvedContext options context))).filterMap
            (fun o => match o with | .ret (.failed e) => some e | _ => none))))
  ∧ (every [(fun _ _ => Outcome.ret (.failed (.bool false)) : Rule Unit JsVal JsVal),
            (fun _ _ => Outcome.ret .passed),
            (fun _ _ => Outcome.ret (.failed (.num 0))),
            (fun _ _ => Outcome.ret (.failed (.str "")))]
        defaultCompositionOptions () none
      = (.ret (.failed [.bool false, .num 0, .str ""]), [0, 1, 2, 3])) := by
  refine ⟨fun I E rules options input context => rfl,
          fun I E rules options input context => rfl, ?_, ?_, by rfl⟩
  · intro I E rules options input context h
    rw [every_fst_no_thrown rules options input context
      (fun r hr v hv => by rw [h r hr] at hv; exact Outcome.noConfusion hv)]
    have hnil : ((rules.map (fun r => r input (resolvedContext options context))).filterMap
        (fun o => match o with | .ret (.failed e) => some e | _ => none)) = [] := by
      rw [List.filterMap_eq_nil_iff]
      intro x hx
      obtain ⟨r, hr, hxr⟩ := List.mem_map.mp hx
      rw [← hxr, h r hr]
    rw [hnil]
    rfl
  · intro I E rules options input context h hne
    rw [every_fst_no_thrown rules options input context
      (fun r hr v hv => by
        obtain ⟨res, hres⟩ := h r hr
        rw [hres] at hv
        exact Outcome.noConfusion hv)]
    rw [if_pos (List.length_pos.mpr hne)]

/-- Witness for C2: two failing rules around a passing one — errors come
back in list order. -/
theorem claim_C2_witness :
    (every [(fun _ _ => Outcome.ret (.failed (.str "first")) : Rule Unit JsVal JsVal),
            (fun _ _ => Outcome.ret .passed),
            (fun _ _ => Outcome.ret (.failed (.str "second")))]
        defaultCompositionOptions () none).1
      = .ret (.failed [.str "first", .str "second"]) := by
  have h := claim_C2_every_collects_errors_in_order.2.2.2.1 Unit JsVal
    [(fun _ _ => Outcome.ret (.failed (.str "first")) : Rule Unit JsVal JsVal),
     (fun _ _ => Outcome.ret .passed),
     (fun _ _ => Outcome.ret (.failed (.str "second")))]
    defaultCompositionOptions () none
    (fun r hr => by
      simp only [List.mem_cons, List.not_mem_nil, or_false] at hr
      rcases hr with h1 | h2 | h3
      · exact ⟨.failed (.str "first"), by rw [h1]⟩
      · exact ⟨.passed, by rw [h2]⟩
      · exact ⟨.failed (.str "second"), by rw [h3]⟩)
    (by simp)
  exact h.trans (by rfl)

/-- Claim C3: for every rule wrapped by `withSafeError` (which is the
default "safe" path of `getNormalizedRule`): a thrown exception / rejected
promise yields `fail(errorTransform(caughtValue))`; a settled value that is
not a well-formed result yields
`fail(errorTransform(new Error("Invalid rule - did not return RuleResult")))`;
a well-formed passed or failed result is returned unchanged — in particular
the result is the same for every choice of transform, so `errorTransform`
is never consulted for an explicit `fail()`; and for any options whose
`errorHandlingMode` is not `"unsafe"`, `getNormalizedRule` is exactly this
wrapper. -/
theorem claim_C3_withSafeError_contract :
    ∀ (I C : Type) (rule : Rule I JsVal C) (errorTransform : Option (JsVal → JsVal))
      (input : I) (context : Option C),
      (∀ v, rule input context = .thrown v →
        withSafeError rule errorTransform input context
          = .ret (.failed ((errorTransform.getD defaultErrorTransform) v)))
    ∧ (rule input context = .invalid →
        withSafeError rule errorTransform input context
          = .ret (.failed ((errorTransform.getD defaultErrorTransform)
              (.errObj "Invalid rule - did not return RuleResult"))))
    ∧ (∀ r, rule input context = .ret r →
        withSafeError rule errorTransform input context = .ret r)
    ∧ (∀ r (other : Option (JsVal → JsVal)), rule input context = .ret r →
        withSafeError rule errorTransform input context
          = withSafeError rule other input context)
    ∧ (∀ opts : Option SafetyOptions,
        opts.bind (·.errorHandlingMode) ≠ some "unsafe" →
        getNormalizedRule rule opts
          = withSafeError rule (opts.bind (·.errorTransform))) := by
  intro I C rule errorTransform input context
  refine ⟨?_, ?_, ?_, ?_, ?_⟩
  · intro v hv
    rw [withSafeError]
    simp only [hv]
  · intro hv
    rw [withSafeError]
    simp only [hv]
  · intro r hr
    rw [withSafeError]
    simp only [hr]
  · intro r other hr
    rw [withSafeError, withSafeError]
    simp only [hr]
  · intro opts hopts
    rw [getNormalizedRule, if_neg hopts]

/-- Witness for C3: a throwing rule, a malformed rule and an explicitly
failing rule under the default transform. -/
theorem claim_C3_witness :
    withSafeError (fun _ _ => Outcome.thrown (.str "boom") : Rule Nat JsVal Unit) none 0 none
      = .ret (.failed (.str "boom"))
  ∧ withSafeError (fun _ _ => Outcome.invalid : Rule Nat JsVal Unit) none 0 none
      = .ret (.failed (.errObj "Invalid rule - did not return RuleResult"))
  ∧ withSafeError (fun _ _ => Outcome.ret (.failed (.num 7)) : Rule Nat JsVal Unit) none 0 none
      = .ret (.failed (.num 7))
  ∧ getNormalizedRule (fun _ _ => Outcome.thrown (.str "boom") : Rule Nat JsVal Unit) none
      = withSafeError (fun _ _ => Outcome.thrown (.str "boom")) none := by
  refine ⟨?_, ?_, ?_, ?_⟩
  · exact ((claim_C3_withSafeError_contract Nat Unit
      (fun _ _ => Outcome.thrown (.str "boom")) none 0 none).1 (.str "boom") rfl).trans (by rfl)
  · exact ((claim_C3_withSafeError_contract Nat Unit
      (fun _ _ => Outcome.invalid) none 0 none).2.1 rfl).trans (by rfl)
  · exact (claim_C3_withSafeError_contract Nat Unit
      (fun _ _ => Outcome.ret (.failed (.num 7))) none 0 none).2.2.1 (.failed (.num 7)) rfl
  · exact (claim_C3_withSafeError_contract Nat Unit
      (fun _ _ => Outcome.thrown (.str "boom")) none 0 none).2.2.2.2 none (by simp)

/-- Claim C4 (code bug): the claim — and the documentation of
`CompositionOptions`, whose safe mode "catches errors and converts them to
failed RuleResults" — requires a composition configured
`errorHandlingMode: "safe"` to force every contained rule into safe
execution.  `pipeRules` as implemented never applies `getNormalizedRules`
to its rules, so a throwing rule makes the composed rule reject
(`thrown`) even under `errorHandlingMode: "safe"`; the normalization
helper itself does implement the forced wrap (second conjunct), it is
simply not invoked by `pipeRules`. -/
theorem claim_C4_pipeRules_ignores_safe_mode :
    pipeRules [(fun _ _ => Outcome.thrown (.str "boom") : Rule Nat JsVal JsVal)]
      { defaultCompositionOptions with errorHandlingMode := some "safe" } 0 none
      = (.thrown (.str "boom"), [0])
  ∧ ((getNormalizedRules [(fun _ _ => Outcome.thrown (.str "boom") : Rule Nat JsVal JsVal)]
        (some { noOpts with errorHandlingMode := some "safe" })).map
      (fun r => r 0 none)) = [.ret (.failed (.str "boom"))] := ⟨rfl, rfl⟩

/-- Claim C7, amended: for `when`, `unless` and `ifElse`, a predicate
evaluation failure is always converted by `withSafePredicate` into a failed
result carrying the predicate's transformed error
(`options?.predicateErrorTransform`, defaulting to the standard transform),
distinct from — and independent of — the branched rules; this holds for
every `errorHandlingMode`, including `"unsafe"`, which affects only the
branched rule. -/
theorem claim_C7_predicate_failure_always_failed :
    ∀ (I : Type) (predicate : Predicate I JsVal) (rule ifR : Rule I JsVal JsVal)
      (elseRule : Option (Rule I JsVal JsVal)) (options : Option SafetyOptions)
      (input : I) (context : Option JsVal) (v : JsVal),
      predicate input context = .thrownP v →
      (whenRule predicate rule options input context
         = .ret (.failed (((options.bind (·.predicateErrorTransform)).getD
             defaultErrorTransform) v))
       ∧ unlessRule predicate rule options input context
         = .ret (.failed (((options.bind (·.predicateErrorTransform)).getD
             defaultErrorTransform) v))
       ∧ ifElse predicate ifR elseRule options input context
         = .ret (.failed (((options.bind (·.predicateErrorTransform)).getD
             defaultErrorTransform) v))) := by
  intro I predicate rule ifR elseRule options input context v hv
  refine ⟨?_, ?_, ?_⟩
  · rw [whenRule]
    simp only [withSafePredicate, hv]
  · rw [unlessRule]
    simp only [withSafePredicate, hv]
  · rw [ifElse.eq_def]
    simp only [withSafePredicate, hv]

/-- Counterexample for C7 as stated: under `errorHandlingMode: "unsafe"`, a
predicate that throws `"boom"` does not propagate — `when` still settles
with a failed result, not with a rejection of the thrown value. -/
theorem claim_C7_counterexample :
    whenRule (I := Nat) (fun _ _ => .thrownP (.str "boom")) (fun _ _ => .ret .passed)
        (some { noOpts with errorHandlingMode := some "unsafe" }) 0 none
      = .ret (.failed (.str "boom"))
  ∧ whenRule (I := Nat) (fun _ _ => .thrownP (.str "boom")) (fun _ _ => .ret .passed)
        (some { noOpts with errorHandlingMode := some "unsafe" }) 0 none
      ≠ .thrown (.str "boom") := by
  refine ⟨rfl, ?_⟩
  intro h
  exact Outcome.noConfusion h

/-- Witness for C7: a throwing predicate under a custom predicate
transform and unsafe mode — all three combinators return the transformed
predicate failure. -/
theorem claim_C7_witness :
    whenRule (I := Nat) (fun _ _ => .thrownP (.num 3)) (fun _ _ => .ret .passed)
        (some { noOpts with errorHandlingMode := some "unsafe",
                            predicateErrorTransform := some (fun _ => .str "pred") }) 0 none
      = .ret (.failed (.str "pred"))
  ∧ unlessRule (I := Nat) (fun _ _ => .thrownP (.num 3)) (fun _ _ => .ret .passed)
        (some { noOpts with errorHandlingMode := some "unsafe",
                            predicateErrorTransform := some (fun _ => .str "pred") }) 0 none
      = .ret (.failed (.str "pred"))
  ∧ ifElse (I := Nat) (fun _ _ => .thrownP (.num 3)) (fun _ _ => .ret .passed) none
        (some { noOpts with errorHandlingMode := some "unsafe",
                            predicateErrorTransform := some (fun _ => .str "pred") }) 0 none
      = .ret (.failed (.str "pred")) := by
  have h := claim_C7_predicate_failure_always_failed Nat
    (fun _ _ => .thrownP (.num 3)) (fun _ _ => .ret .passed) (fun _ _ => .ret .passed) none
    (some { noOpts with errorHandlingMode := some "unsafe",
                        predicateErrorTransform := some (fun _ => .str "pred") }) 0 none
    (.num 3) rfl
  exact ⟨h.1.trans (by rfl), h.2.1.trans (by rfl), h.2.2.trans (by rfl)⟩

/-- Claim C8 (code bug): the claim — and the `CompositionOptions` warning
"All clones convert undefined/null to empty object {}" — requires all three
clone strategies to map a `null`/`undefined` context to `{}`.  The shallow
and JSON strategies do (and none of the three throws, being total
functions), but the structured strategy selected by `getCloneFn` is the
native `structuredClone`, which returns `null`/`undefined` unchanged. -/
theorem claim_C8_clone_nullish :
    shallowClone .nullV = .obj [] ∧ shallowClone .undefV = .obj []
  ∧ clone .nullV = .obj [] ∧ clone .undefV = .obj []
  ∧ getCloneFn { shallowClone := true } true = shallowClone
  ∧ getCloneFn {} true = clone
  ∧ getCloneFn { structuredClone := true } true = structuredCloneV
  ∧ structuredCloneV .nullV = .nullV
  ∧ structuredCloneV .undefV = .undefV
  ∧ structuredCloneV .nullV ≠ .obj [] := by
  refine ⟨rfl, rfl, rfl, rfl, rfl, rfl, rfl, rfl, rfl, ?_⟩
  intro h
  exact JsVal.noConfusion h

/-- Claim C9: for every `match` invocation whose computed key has no rule in
the case mapping, a provided non-callable default yields `fail(default)`,
and no default yields `fail("No matching rule for key: <key>")` with the key
interpolated; concretely, key `"bank_transfer"` over the cases
`{credit_card, crypto}` yields
`fail("No matching rule for key: bank_transfer")`. -/
theorem claim_C9_match_default_handling :
    (∀ (I : Type) (accessor : I → Option JsVal → Except JsVal String)
       (caseMap : List (String × Rule I JsVal JsVal)) (options : Option SafetyOptions)
       (input : I) (context : Option JsVal) (key : String),
       accessor input context = Except.ok key →
       caseMap.lookup key = none →
       (∀ v, matchRule accessor caseMap (some (.literalD v)) options input context
          = .ret (.failed v))
       ∧ matchRule accessor caseMap none options input context
          = .ret (.failed (.str ("No matching rule for key: " ++ key))))
  ∧ matchRule (I := Tx) (fun tx _ => .ok tx.paymentType)
      [("credit_card", fun _ _ => .ret .passed), ("crypto", fun _ _ => .ret .passed)]
      none none ⟨"bank_transfer"⟩ none
      = .ret (.failed (.str "No matching rule for key: bank_transfer")) := by
  refine ⟨?_, by rfl⟩
  intro I accessor caseMap options input context key hkey hlookup
  constructor
  · intro v
    rw [matchRule]
    simp only [hkey, hlookup]
  · rw [matchRule]
    simp only [hkey, hlookup]

/-- Witness for C9: a miss with a literal (non-callable) default and a miss
with no default. -/
theorem claim_C9_witness :
    matchRule (I := String) (fun s _ => .ok s)
        [("credit_card", fun _ _ => .ret .passed)]
        (some (.literalD (.str "Unsupported payment method"))) none "crypto" none
      = .ret (.failed (.str "Unsupported payment method"))
  ∧ matchRule (I := String) (fun s _ => .ok s)
        [("credit_card", fun _ _ => .ret .passed)]
        none none "crypto" none
      = .ret (.failed (.str "No matching rule for key: crypto")) := by
  have h := claim_C9_match_default_handling.1 String (fun s _ => .ok s)
    [("credit_card", fun _ _ => .ret .passed)] none "crypto" none "crypto" rfl rfl
  exact ⟨h.1 (.str "Unsupported payment method"), h.2.trans (by rfl)⟩

/-- Claim C10: the accessor of `match` is evaluated outside the safety
normalization layer — if it throws or rejects, the composed rule rejects
with that exception, for every `options` value (including `"safe"` and
unset), instead of settling with a failed result. -/
theorem claim_C10_match_accessor_unprotected :
    ∀ (I : Type) (accessor : I → Option JsVal → Except JsVal String)
      (caseMap : List (String × Rule I JsVal JsVal))
      (defaultCase : Option (DefaultCase I)) (options : Option SafetyOptions)
      (input : I) (context : Option JsVal) (v : JsVal),
      accessor input context = Except.error v →
      matchRule accessor caseMap defaultCase options input context = .thrown v := by
  intro I accessor caseMap defaultCase options input context v hv
  rw [matchRule]
  simp only [hv]

/-- Witness for C10: a throwing accessor under explicit `"safe"` mode — the
composed rule rejects with the thrown value. -/
theorem claim_C10_witness :
    matchRule (I := Nat) (fun _ _ => .error (.errObj "accessor blew up"))
        [("a", fun _ _ => .ret .passed)] none
        (some { noOpts with errorHandlingMode := some "safe" }) 0 none
      = .thrown (.errObj "accessor blew up") :=
  claim_C10_match_accessor_unprotected Nat (fun _ _ => .error (.errObj "accessor blew up"))
    [("a", fun _ _ => .ret .passed)] none
    (some { noOpts with errorHandlingMode := some "safe" }) 0 none
    (.errObj "accessor blew up") rfl

theorem withRetryGo_exhaust (runs : Nat → Outcome JsVal) (sr : JsVal → Nat → Bool) :
    ∀ (remaining attempt : Nat),
      (∀ i, attempt ≤ i → i < attempt + remaining →
        runs i ≠ .ret .passed ∧ sr (retryErrOf (runs i)) i = true) →
      withRetryGo runs sr remaining attempt
        = (.failed (.str "MAX_RETRIES_EXCEEDED"), remaining) := by
  intro remaining
  induction remaining with
  | zero => intro attempt h; rfl
  | succ m ih =>
    intro attempt h
    have h0 := h attempt (le_refl _) (by omega)
    have hrec := ih (attempt + 1) (fun i h1 h2 => h i (by omega) (by omega))
    cases hr : runs attempt with
    | ret r =>
      cases r with
      | passed => exact absurd hr h0.1
      | failed e =>
        rw [hr] at h0
        simp [withRetryGo, hr, h0.2, hrec]
    | invalid =>
      rw [hr] at h0
      simp [withRetryGo, hr, h0.2, hrec]
    | thrown v =>
      rw [hr] at h0
      simp [withRetryGo, hr, h0.2, hrec]

theorem withRetryGo_stop (runs : Nat → Outcome JsVal) (sr : JsVal → Nat → Bool) :
    ∀ (remaining attempt j : Nat), attempt ≤ j → j < attempt + remaining →
      (∀ i, attempt ≤ i → i < j →
        runs i ≠ .ret .passed ∧ sr (retryErrOf (runs i)) i = true) →
      runs j ≠ .ret .passed → sr (retryErrOf (runs j)) j = false →
      withRetryGo runs sr remaining attempt
        = (.failed (retryErrOf (runs j)), j + 1 - attempt) := by
  intro remaining
  induction remaining with
  | zero => intro attempt j h1 h2; omega
  | succ m ih =>
    intro attempt j h1 h2 hpre hj hsr
    rcases Nat.eq_or_lt_of_le h1 with heq | hlt
    · subst heq
      have hone : attempt + 1 - attempt = 1 := by omega
      cases hr : runs attempt with
      | ret r =>
        cases r with
        | passed => exact absurd hr hj
        | failed e =>
          rw [hr] at hsr
          simp [withRetryGo, hr, hsr, hone]
      | invalid =>
        rw [hr] at hsr
        simp [withRetryGo, hr, hsr, hone]
      | thrown v =>
        rw [hr] at hsr
        simp [withRetryGo, hr, hsr, hone]
    · have h0 := hpre attempt (le_refl _) hlt
      have hrec := ih (attempt + 1) j hlt (by omega)
        (fun i ha hb => hpre i (by omega) hb) hj hsr
      cases hr : runs attempt with
      | ret r =>
        cases r with
        | passed => exact absurd hr h0.1
        | failed e =>
          rw [hr] at h0
          simp [withRetryGo, hr, h0.2, hrec]
          omega
      | invalid =>
        rw [hr] at h0
        simp [withRetryGo, hr, h0.2, hrec]
        omega
      | thrown v =>
        rw [hr] at h0
        simp [withRetryGo, hr, h0.2, hrec]
        omega

/-- Claim C6: for the rule returned by `withRetry`: on each non-passing
attempt (a failed result or a thrown/rejected execution, captured as
`lastError` by `retryErrOf`), `shouldRetry(lastError, attempt)` is
consulted, and a `false` answer makes the combinator return
`fail(lastError)` at once, with exactly that many invocations and no
further attempts; if all `attempts` attempts are exhausted without a pass,
it returns the distinguished sentinel `fail("MAX_RETRIES_EXCEEDED")` — not
the last real error — after exactly `attempts` invocations. -/
theorem claim_C6_withRetry_shouldRetry_and_sentinel :
    ∀ (runs : Nat → Outcome JsVal) (options : RetryOptions),
      (∀ j, 1 ≤ j → j ≤ options.attempts →
        (∀ i, 1 ≤ i → i < j →
          runs i ≠ .ret .passed ∧ options.shouldRetry (retryErrOf (runs i)) i = true) →
        runs j ≠ .ret .passed →
        options.shouldRetry (retryErrOf (runs j)) j = false →
        withRetry runs options = (.failed (retryErrOf (runs j)), j))
    ∧ ((∀ i, 1 ≤ i → i ≤ options.attempts →
          runs i ≠ .ret .passed ∧ options.shouldRetry (retryErrOf (runs i)) i = true) →
        withRetry runs options = (.failed (.str "MAX_RETRIES_EXCEEDED"), options.attempts)) := by
  intro runs options
  constructor
  · intro j hj1 hj2 hpre hj hsr
    have h := withRetryGo_stop runs options.shouldRetry options.attempts 1 j hj1 (by omega)
      hpre hj hsr
    have hc : j + 1 - 1 = j := by omega
    rw [withRetry, h, hc]
  · intro h
    exact withRetryGo_exhaust runs options.shouldRetry options.attempts 1
      (fun i h1 h2 => h i h1 (by omega))

/-- Witness for C6: a rule that always fails with its attempt number, with
`shouldRetry` refusing at attempt 2, stops after 2 invocations with the real
error; a rule that always throws under the default options exhausts 3
attempts and returns the sentinel. -/
theorem claim_C6_witness :
    withRetry (fun i => .ret (.failed (.num i)))
        { attempts := 3, shouldRetry := fun _ i => decide (i < 2) }
      = (.failed (.num 2), 2)
  ∧ withRetry (fun _ => .thrown (.str "boom")) {}
      = (.failed (.str "MAX_RETRIES_EXCEEDED"), 3) := by
  constructor
  · have h := (claim_C6_withRetry_shouldRetry_and_sentinel (fun i => .ret (.failed (.num i)))
      { attempts := 3, shouldRetry := fun _ i => decide (i < 2) }).1 2 (by decide) (by decide)
      (fun i h1 h2 => by
        have hi : i = 1 := by omega
        subst hi
        exact ⟨fun hcon => by simp at hcon, by decide⟩)
      (fun hcon => by simp at hcon) (by decide)
    exact h.trans (by rfl)
  · exact (claim_C6_withRetry_shouldRetry_and_sentinel (fun _ => .thrown (.str "boom")) {}).2
      (fun i h1 h2 => ⟨fun hcon => Outcome.noConfusion hcon, rfl⟩)

theorem getNormalizedRule_not_unsafe_ret {I C : Type} (rule : Rule I JsVal C)
    (opts : Option SafetyOptions) (h : opts.bind (·.errorHandlingMode) ≠ some "unsafe")
    (input : I) (context : Option C) :
    ∃ r, getNormalizedRule rule opts input context = .ret r := by
  rw [getNormalizedRule, if_neg h]
  cases hr : rule input context with
  | ret r => exact ⟨r, by simp [withSafeError, hr]⟩
  | invalid =>
    exact ⟨.failed (((opts.bind (·.errorTransform)).getD defaultErrorTransform)
      (.errObj "Invalid rule - did not return RuleResult")), by simp [withSafeError, hr]⟩
  | thrown v =>
    exact ⟨.failed (((opts.bind (·.errorTransform)).getD defaultErrorTransform) v),
      by simp [withSafeError, hr]⟩

theorem lookup_eq_none_of_not_mem {β : Type} (k : String) (l : List (String × β))
    (h : k ∉ l.map Prod.fst) : l.lookup k = none := by
  induction l with
  | nil => rfl
  | cons kv rest ih =>
    obtain ⟨a, b⟩ := kv
    simp only [List.map_cons, List.mem_cons, not_or] at h
    rw [List.lookup_cons]
    simp only [beq_eq_false_iff_ne.mpr h.1, ih h.2]

theorem mem_evictOldest_keys {l : List (String × MemoEntry)} {k : String}
    (h : k ∈ (evictOldest l).map Prod.fst) : k ∈ l.map Prod.fst := by
  cases l with
  | nil => exact h
  | cons kv rest =>
    obtain ⟨a, b⟩ := kv
    rw [evictOldest] at h
    by_cases ha : a = ""
    · rw [if_pos ha] at h
      exact h
    · rw [if_neg ha] at h
      exact List.mem_cons_of_mem _ h

theorem memo_same_key_once {I : Type} (rule : Rule I JsVal JsVal) (keyFn : I → String)
    (i1 i2 : I) (c1 c2 : Option JsVal) (t1 t2 : Nat) (hkey : keyFn i1 = keyFn i2) :
    (withMemoizeRun rule keyFn {} [(i1, c1, t1), (i2, c2, t2)] []).2 = 1 := by
  obtain ⟨r, hr⟩ := getNormalizedRule_not_unsafe_ret rule (some (memoSafety {}))
    (by simp [memoSafety]) i1 c1
  simp [withMemoizeRun, withMemoizeCall, hr, hkey, List.lookup]

theorem memo_distinct_keys_twice {I : Type} (rule : Rule I JsVal JsVal) (keyFn : I → String)
    (i1 i2 : I) (c1 c2 : Option JsVal) (t1 t2 : Nat) (hkey : keyFn i1 ≠ keyFn i2) :
    (withMemoizeRun rule keyFn {} [(i1, c1, t1), (i2, c2, t2)] []).2 = 2 := by
  obtain ⟨r1, hr1⟩ := getNormalizedRule_not_unsafe_ret rule (some (memoSafety {}))
    (by simp [memoSafety]) i1 c1
  obtain ⟨r2, hr2⟩ := getNormalizedRule_not_unsafe_ret rule (some (memoSafety {}))
    (by simp [memoSafety]) i2 c2
  simp [withMemoizeRun, withMemoizeCall, hr1, hr2, List.lookup,
    beq_eq_false_iff_ne.mpr (Ne.symm hkey)]

theorem memo_ttl_expiry {I : Type} (rule : Rule I JsVal JsVal) (keyFn : I → String)
    (i1 i2 : I) (c1 c2 : Option JsVal) (t1 t2 T : Nat) (hT : T ≠ 0)
    (hkey : keyFn i1 = keyFn i2) (helapsed : t2 - t1 > T) :
    (withMemoizeRun rule keyFn { ttl := some T } [(i1, c1, t1), (i2, c2, t2)] []).2 = 2 := by
  obtain ⟨r1, hr1⟩ := getNormalizedRule_not_unsafe_ret rule
    (some (memoSafety { ttl := some T })) (by simp [memoSafety]) i1 c1
  obtain ⟨r2, hr2⟩ := getNormalizedRule_not_unsafe_ret rule
    (some (memoSafety { ttl := some T })) (by simp [memoSafety]) i2 c2
  have hfilter : ¬ (t2 ≤ T + t1) := by omega
  simp [withMemoizeRun, withMemoizeCall, hr1, hr2, hkey, hT, memoSweep, hfilter]

theorem memo_eviction {I : Type} (rule : Rule I JsVal JsVal) (keyFn : I → String)
    (n : Nat) (k0 : String) (e0 : MemoEntry) (rest : List (String × MemoEntry))
    (i1 i0 : I) (c c' : Option JsVal) (t t' : Nat)
    (hn : n ≠ 0)
    (hlen : ((k0, e0) :: rest).length = n)
    (hnodup : (((k0, e0) :: rest).map Prod.fst).Nodup)
    (hk0 : k0 ≠ "")
    (hfresh : keyFn i1 ∉ ((k0, e0) :: rest).map Prod.fst)
    (hold : keyFn i0 = k0) :
    (withMemoizeCall rule keyFn { maxSize := some n } ((k0, e0) :: rest) i1 c t).2.2 = 1
  ∧ (withMemoizeCall rule keyFn { maxSize := some n } ((k0, e0) :: rest) i1 c t).2.1
      = rest ++ [(keyFn i1,
          ⟨getNormalizedRule rule (some (memoSafety { maxSize := some n })) i1 c, t⟩)]
  ∧ (withMemoizeCall rule keyFn { maxSize := some n }
      ((withMemoizeCall rule keyFn { maxSize := some n } ((k0, e0) :: rest) i1 c t).2.1)
      i0 c' t').2.2 = 1 := by
  obtain ⟨r1, hr1⟩ := getNormalizedRule_not_unsafe_ret rule
    (some (memoSafety { maxSize := some n })) (by simp [memoSafety]) i1 c
  have hrl : rest.length + 1 = n := by simpa using hlen
  have hge : n ≤ rest.length + 1 := le_of_eq hrl.symm
  have hevict : evictOldest ((k0, e0) :: rest) = rest := by
    rw [evictOldest, if_neg hk0]
  have hlook1 : rest.lookup (keyFn i1) = none :=
    lookup_eq_none_of_not_mem _ _
      (fun hm => hfresh (List.mem_cons_of_mem _ hm))
  have hstepA : withMemoizeCall rule keyFn { maxSize := some n } ((k0, e0) :: rest) i1 c t
      = (.ret r1, rest ++ [(keyFn i1, ⟨.ret r1, t⟩)], 1) := by
    simp [withMemoizeCall, hn, hge, hevict, hlook1, hr1, hlen]
  have hk0rest : k0 ∉ rest.map Prod.fst := by
    have h := hnodup
    simp only [List.map_cons, List.nodup_cons] at h
    exact h.1
  have hne10 : keyFn i1 ≠ k0 := by
    intro h
    exact hfresh (by rw [h]; exact List.mem_cons_self _ _)
  have hk0new : k0 ∉ (rest ++ [(keyFn i1, (⟨.ret r1, t⟩ : MemoEntry))]).map Prod.fst := by
    simp only [List.map_append, List.mem_append, List.map_cons, List.map_nil,
      List.mem_singleton, not_or]
    exact ⟨hk0rest, fun hm => hne10 hm.symm⟩
  have hlookB : (evictOldest (rest ++ [(keyFn i1, (⟨.ret r1, t⟩ : MemoEntry))])).lookup k0
      = none :=
    lookup_eq_none_of_not_mem _ _ (fun hm => hk0new (mem_evictOldest_keys hm))
  obtain ⟨rB, hrB⟩ := getNormalizedRule_not_unsafe_ret rule
    (some (memoSafety { maxSize := some n })) (by simp [memoSafety]) i0 c'
  refine ⟨by rw [hstepA], by rw [hstepA, hr1], ?_⟩
  rw [hstepA]
  simp only []
  simp [withMemoizeCall, hn, hge, hold, hlookB, hrB]

/-- Claim C5, amended: for the rule returned by `withMemoize`: (1) under the
default options, two calls whose inputs derive to the same key invoke the
underlying rule exactly once, and (2) two calls with different derived keys
invoke it twice; (3) with a (positive) `ttl` configured, a repeated call
after the ttl has elapsed invokes the rule again; (4) with `maxSize`
configured and the cache at capacity, inserting one more distinct key evicts
only the oldest-inserted key — provided that key is not the empty string —
and a later access to the evicted key is a fresh miss (the rule is invoked
again). -/
theorem claim_C5_withMemoize_cache_behaviour :
    (∀ (I : Type) (rule : Rule I JsVal JsVal) (keyFn : I → String)
       (i1 i2 : I) (c1 c2 : Option JsVal) (t1 t2 : Nat), keyFn i1 = keyFn i2 →
       (withMemoizeRun rule keyFn {} [(i1, c1, t1), (i2, c2, t2)] []).2 = 1)
  ∧ (∀ (I : Type) (rule : Rule I JsVal JsVal) (keyFn : I → String)
       (i1 i2 : I) (c1 c2 : Option JsVal) (t1 t2 : Nat), keyFn i1 ≠ keyFn i2 →
       (withMemoizeRun rule keyFn {} [(i1, c1, t1), (i2, c2, t2)] []).2 = 2)
  ∧ (∀ (I : Type) (rule : Rule I JsVal JsVal) (keyFn : I → String)
       (i1 i2 : I) (c1 c2 : Option JsVal) (t1 t2 T : Nat), T ≠ 0 →
       keyFn i1 = keyFn i2 → t2 - t1 > T →
       (withMemoizeRun rule keyFn { ttl := some T } [(i1, c1, t1), (i2, c2, t2)] []).2 = 2)
  ∧ (∀ (I : Type) (rule : Rule I JsVal JsVal) (keyFn : I → String)
       (n : Nat) (k0 : String) (e0 : MemoEntry) (rest : List (String × MemoEntry))
       (i1 i0 : I) (c c' : Option JsVal) (t t' : Nat),
       n ≠ 0 → ((k0, e0) :: rest).length = n →
       (((k0, e0) :: rest).map Prod.fst).Nodup → k0 ≠ "" →
       keyFn i1 ∉ ((k0, e0) :: rest).map Prod.fst → keyFn i0 = k0 →
       (withMemoizeCall rule keyFn { maxSize := some n } ((k0, e0) :: rest) i1 c t).2.2 = 1
       ∧ (withMemoizeCall rule keyFn { maxSize := some n } ((k0, e0) :: rest) i1 c t).2.1
           = rest ++ [(keyFn i1,
               ⟨getNormalizedRule rule (some (memoSafety { maxSize := some n })) i1 c, t⟩)]
       ∧ (withMemoizeCall rule keyFn { maxSize := some n }
           ((withMemoizeCall rule keyFn { maxSize := some n } ((k0, e0) :: rest) i1 c t).2.1)
           i0 c' t').2.2 = 1) :=
  ⟨fun _ rule keyFn i1 i2 c1 c2 t1 t2 h =>
      memo_same_key_once rule keyFn i1 i2 c1 c2 t1 t2 h,
   fun _ rule keyFn i1 i2 c1 c2 t1 t2 h =>
      memo_distinct_keys_twice rule keyFn i1 i2 c1 c2 t1 t2 h,
   fun _ rule keyFn i1 i2 c1 c2 t1 t2 T hT hk he =>
      memo_ttl_expiry rule keyFn i1 i2 c1 c2 t1 t2 T hT hk he,
   fun _ rule keyFn n k0 e0 rest i1 i0 c c' t t' hn hlen hnodup hk0 hfresh hold =>
      memo_eviction rule keyFn n k0 e0 rest i1 i0 c c' t t' hn hlen hnodup hk0 hfresh hold⟩

/-- Counterexample for C5 as stated: with `maxSize: 1`, after caching the
key `""` and then inserting the distinct key `"a"`, the claim predicts that
`""` (the oldest key) is evicted — so the cache holds only `"a"` and a third
call deriving `""` is a fresh miss, for 3 invocations in total.  The size
check `if (oldestKey) cache.delete(oldestKey)` is skipped for the falsy
empty-string key, so nothing is ever evicted: the cache ends with both keys
(exceeding `maxSize`) and the third call is a hit — 2 invocations. -/
theorem claim_C5_counterexample :
    (withMemoizeRun (I := String) (fun _ _ => .ret .passed) id { maxSize := some 1 }
        [("", none, 0), ("a", none, 0), ("", none, 0)] []).2 = 2
  ∧ ((withMemoizeRun (I := String) (fun _ _ => .ret .passed) id { maxSize := some 1 }
        [("", none, 0), ("a", none, 0), ("", none, 0)] []).1.map Prod.fst) = ["", "a"]
  ∧ (withMemoizeRun (I := String) (fun _ _ => .ret .passed) id { maxSize := some 1 }
        [("", none, 0), ("a", none, 0), ("", none, 0)] []).2 ≠ 3 := by
  exact ⟨rfl, rfl, by decide⟩

/-- Witness for C5: concrete instances of all four amended scenarios. -/
theorem claim_C5_witness :
    (withMemoizeRun (I := Nat) (fun _ _ => .ret .passed) (fun _ => "k") {}
        [(0, none, 0), (1, none, 5)] []).2 = 1
  ∧ (withMemoizeRun (I := String) (fun _ _ => .ret .passed) id {}
        [("x", none, 0), ("y", none, 0)] []).2 = 2
  ∧ (withMemoizeRun (I := String) (fun _ _ => .ret .passed) id { ttl := some 10 }
        [("x", none, 0), ("x", none, 20)] []).2 = 2
  ∧ (withMemoizeCall (I := String) (fun _ _ => .ret .passed) id { maxSize := some 2 }
        [("k0", ⟨.ret .passed, 0⟩), ("k1", ⟨.ret .passed, 0⟩)] "k2" none 7).2.2 = 1
  ∧ (withMemoizeCall (I := String) (fun _ _ => .ret .passed) id { maxSize := some 2 }
        [("k0", ⟨.ret .passed, 0⟩), ("k1", ⟨.ret .passed, 0⟩)] "k2" none 7).2.1
      = [("k1", ⟨.ret .passed, 0⟩),
         ("k2", ⟨getNormalizedRule (I := String) (C := JsVal) (fun _ _ => .ret .passed)
             (some (memoSafety { maxSize := some 2 })) "k2" none, 7⟩)]
  ∧ (withMemoizeCall (I := String) (fun _ _ => .ret .passed) id { maxSize := some 2 }
        ((withMemoizeCall (I := String) (fun _ _ => .ret .passed) id { maxSize := some 2 }
          [("k0", ⟨.ret .passed, 0⟩), ("k1", ⟨.ret .passed, 0⟩)] "k2" none 7).2.1)
        "k0" none 9).2.2 = 1 := by
  have h1 := claim_C5_withMemoize_cache_behaviour.1 Nat (fun _ _ => .ret .passed)
    (fun _ => "k") 0 1 none none 0 5 rfl
  have h2 := claim_C5_withMemoize_cache_behaviour.2.1 String (fun _ _ => .ret .passed)
    id "x" "y" none none 0 0 (by decide)
  have h3 := claim_C5_withMemoize_cache_behaviour.2.2.1 String (fun _ _ => .ret .passed)
    id "x" "x" none none 0 20 10 (by decide) rfl (by decide)
  have h4 := claim_C5_withMemoize_cache_behaviour.2.2.2 String (fun _ _ => .ret .passed)
    id 2 "k0" ⟨.ret .passed, 0⟩ [("k1", ⟨.ret .passed, 0⟩)] "k2" "k0" none none 7 9
    (by decide) (by decide) (by decide) (by decide) (by decide) rfl
  exact ⟨h1, h2, h3, h4.1, h4.2.1, h4.2.2⟩

end TS
